import Mathlib

/-!
Formal verification of the core statistical and simulation components of the
stroke-pathway discrete-event simulation repository
(`pythonhealthdatascience/pydesrap_stroke`).

The Python sources are shallowly embedded:
* floats are idealised as rationals (`ℚ`) for the exactly-representable
  arithmetic the claims exercise, and as reals (`ℝ`) where square roots and
  Student-t quantiles appear;
* Python `None` / `np.nan` results are `Option.none`;
* code that raises an exception is modelled with `Except`.
-/

/-! ## `OnlineStatistics` (src/simulation/replications.py, lines 28-172)

Running mean / sum-of-squared-deviations via Welford's algorithm.  The
Python object starts with `n = 0` and `x_i = mean = _sq = None`; `update`
increments `n`, and on the first observation seeds `mean := x`, `_sq := 0`,
otherwise applies the Welford recurrence.  The derived properties `std`,
`lci`, `uci`, `deviation` return `np.nan` (here `Option.none`) unless
`n > 2`.  The Student-t quantile `scipy.stats.t.ppf(1 - alpha/2, n - 1)` is
kept abstract as a parameter `tppf`. -/

structure OnlineStatistics where
  n : ℕ
  x_i : Option ℚ
  mean : Option ℚ
  sq : Option ℚ      -- `_sq` in the Python source
  alpha : ℚ
  deriving DecidableEq, Repr

def initStats (alpha : ℚ) : OnlineStatistics :=
  { n := 0, x_i := none, mean := none, sq := none, alpha := alpha }

def OnlineStatistics.update (s : OnlineStatistics) (x : ℚ) : OnlineStatistics :=
  if s.n + 1 = 1 then
    { s with n := s.n + 1, x_i := some x, mean := some x, sq := some 0 }
  else
    { s with
      n := s.n + 1
      x_i := some x
      mean := s.mean.map (fun m => m + (x - m) / ((s.n : ℚ) + 1))
      sq := s.mean.bind fun m => s.sq.map fun q =>
        q + (x - m) * (x - (m + (x - m) / ((s.n : ℚ) + 1))) }

/-- Feeding a data array to the constructor runs `update` once per element. -/
def runStats (alpha : ℚ) (xs : List ℚ) : OnlineStatistics :=
  xs.foldl OnlineStatistics.update (initStats alpha)

/-- `variance = _sq / (n - 1)`; only ever read via `std` when `n > 2`
(at `n ≤ 1` the Python code would raise a division/type error). -/
def OnlineStatistics.variance (s : OnlineStatistics) : Option ℚ :=
  s.sq.map (fun q => q / ((s.n : ℚ) - 1))

noncomputable def OnlineStatistics.std (s : OnlineStatistics) : Option ℝ :=
  if 2 < s.n then s.variance.map (fun v => Real.sqrt (v : ℝ)) else none

noncomputable def OnlineStatistics.std_error (s : OnlineStatistics) : Option ℝ :=
  s.std.map (fun sd => sd / Real.sqrt (s.n : ℝ))

noncomputable def OnlineStatistics.half_width (tppf : ℚ → ℤ → ℝ)
    (s : OnlineStatistics) : Option ℝ :=
  s.std_error.map (fun se => tppf (1 - s.alpha / 2) ((s.n : ℤ) - 1) * se)

noncomputable def OnlineStatistics.lci (tppf : ℚ → ℤ → ℝ)
    (s : OnlineStatistics) : Option ℝ :=
  if 2 < s.n then
    match s.mean, s.half_width tppf with
    | some m, some hw => some ((m : ℝ) - hw)
    | _, _ => none
  else none

noncomputable def OnlineStatistics.uci (tppf : ℚ → ℤ → ℝ)
    (s : OnlineStatistics) : Option ℝ :=
  if 2 < s.n then
    match s.mean, s.half_width tppf with
    | some m, some hw => some ((m : ℝ) + hw)
    | _, _ => none
  else none

noncomputable def OnlineStatistics.deviation (tppf : ℚ → ℤ → ℝ)
    (s : OnlineStatistics) : Option ℝ :=
  if 2 < s.n then
    match s.mean, s.half_width tppf with
    | some m, some hw => some (hw / (m : ℝ))
    | _, _ => none
  else none

/-! ## `ReplicationsAlgorithm.find_position` (replications.py, lines 343-373)

The deviation lists handed to `find_position` hold Python floats, `np.nan`,
or Python `None`.  The three behave differently:
* the initial guard `all(x is None or x >= threshold)` treats `None` as
  "above" while `nan >= threshold` is `False`;
* `pd.Series(lst).first_valid_index()` skips both `None` and `nan`;
* the window test `value < threshold` is `False` for `nan` but raises a
  `TypeError` for `None` (modelled with `Except.error ()`). -/

inductive DevVal where
  | num (v : ℚ)
  | nan
  | null
  deriving DecidableEq, Repr

def DevVal.isNum : DevVal → Bool
  | .num _ => true
  | _ => false

/-- `all(x is None or x >= self.half_width_precision for x in lst)`
(also `True` for the empty list, covering `not lst`). -/
def guardAllAbove (hwp : ℚ) (lst : List DevVal) : Bool :=
  lst.all fun x =>
    match x with
    | .null => true
    | .num v => decide (hwp ≤ v)
    | .nan => false

/-- `pd.Series(lst).first_valid_index()`: index of the first entry that is
neither `None` nor `nan`. -/
def firstValidIdx : List DevVal → Option ℕ
  | [] => none
  | x :: rest =>
    if x.isNum then some 0 else (firstValidIdx rest).map (· + 1)

/-- `all(value < self.half_width_precision for value in window)`, with
Python's lazy short-circuiting: comparing `None` raises `TypeError`. -/
def windowAllBelow (hwp : ℚ) : List DevVal → Except Unit Bool
  | [] => .ok true
  | .null :: _ => .error ()
  | .nan :: _ => .ok false
  | .num v :: rest =>
    if v < hwp then windowAllBelow hwp rest else .ok false

/-- `for i in range(start_index, len(lst) - look_ahead)`: scan windows
`lst[i : i + look_ahead + 1]`; `fuel` is the number of loop iterations
remaining, i.e. `(len(lst) - look_ahead) - i`. -/
def scanWindows (hwp : ℚ) (la : ℕ) (lst : List DevVal) :
    ℕ → ℕ → Except Unit (Option ℕ)
  | _, 0 => .ok none
  | i, fuel + 1 =>
    match windowAllBelow hwp ((lst.drop i).take (la + 1)) with
    | .error e => .error e
    | .ok true => .ok (some (i + 1))
    | .ok false => scanWindows hwp la lst (i + 1) fuel

def find_position (hwp : ℚ) (la : ℕ) (lst : List DevVal) :
    Except Unit (Option ℕ) :=
  if guardAllAbove hwp lst then .ok none
  else
    match firstValidIdx lst with
    | none => .ok none
    | some s => scanWindows hwp la lst s (lst.length - la - s)

/-! ## `ReplicationsAlgorithm.select` (replications.py, lines 252-514)

The loop is embedded over an abstract runner: `results r j` is the value of
metric `j` in replication `r` (the code's `runner.run_single(r)['run'][metric]`).
The numeric pipeline `t.ppf(...) * std / sqrt(n) / mean` behind the
`deviation` property is abstracted as `devF : OnlineStatistics → Option ℚ`
(`none` = `nan`); the structural `n > 2` guard of the property is kept
explicit in `devProp`, and Python's `nan <= hwp == False` in `devLE`.
The `while` loop is run on explicit fuel: `loopRun` returns `none` only
when the fuel is exhausted before the loop condition turns false. -/

def devProp (devF : OnlineStatistics → Option ℚ) (s : OnlineStatistics) :
    Option ℚ :=
  if 2 < s.n then devF s else none

/-- `stats[metric].deviation <= self.half_width_precision` (False on `nan`). -/
def devLE (d : Option ℚ) (hwp : ℚ) : Bool :=
  match d with
  | some v => decide (v ≤ hwp)
  | none => false

/-- `ReplicationTabulizer`: records `x_i`, the running mean and the deviation
after every `OnlineStatistics.update` (the Real-valued `stdev`/`lci`/`uci`
columns play no role in the claims and are omitted). -/
structure Tabulizer where
  n : ℕ
  x_i : List (Option ℚ)
  cumulative_mean : List (Option ℚ)
  dev : List (Option ℚ)
  deriving DecidableEq, Repr

def emptyTab : Tabulizer := { n := 0, x_i := [], cumulative_mean := [], dev := [] }

def Tabulizer.record (devF : OnlineStatistics → Option ℚ) (o : Tabulizer)
    (s : OnlineStatistics) : Tabulizer :=
  { n := o.n + 1
    x_i := o.x_i ++ [s.x_i]
    cumulative_mean := o.cumulative_mean ++ [s.mean]
    dev := o.dev ++ [devProp devF s] }

/-- Per-metric record held in the `solutions` dictionary. -/
structure SolRec where
  nreps : Option ℕ
  target_met : ℕ
  solved : Bool
  deriving DecidableEq, Repr

structure MetricState where
  stats : OnlineStatistics
  tab : Tabulizer
  sol : SolRec
  deriving DecidableEq, Repr

/-- One `stats[metric].update(x)` together with its observer notification. -/
def updateMetric (devF : OnlineStatistics → Option ℚ) (ms : MetricState)
    (x : ℚ) : MetricState :=
  let stats' := ms.stats.update x
  { ms with stats := stats', tab := ms.tab.record devF stats' }

structure AlgParams where
  alpha : ℚ
  half_width_precision : ℚ
  initial_replications : ℕ
  look_ahead : ℕ
  replication_budget : ℕ
  deriving DecidableEq, Repr

/-- `_klimit()`: `int((look_ahead / 100) * max(n, 100))` (float arithmetic
idealised to the exact truncated quotient). -/
def klimit (la n : ℕ) : ℕ := la * max n 100 / 100

structure SelState (k : ℕ) where
  n : ℕ
  mets : Fin k → MetricState

/-- Initial batch: run `initial_replications` replications, feed them to each
metric's accumulator, then apply the post-batch precision check
(`nreps := n`, `target_met := 1`, solved iff `_klimit() == 0`). -/
def initSelState (k : ℕ) (P : AlgParams) (devF : OnlineStatistics → Option ℚ)
    (results : ℕ → Fin k → ℚ) : SelState k :=
  let feed : Fin k → MetricState := fun j =>
    ((List.range P.initial_replications).map (fun r => results r j)).foldl
      (updateMetric devF)
      { stats := initStats P.alpha, tab := emptyTab
        sol := { nreps := none, target_met := 0, solved := false } }
  { n := P.initial_replications
    mets := fun j =>
      let ms := feed j
      if devLE (devProp devF ms.stats) P.half_width_precision then
        { ms with
          sol := { nreps := some P.initial_replications, target_met := 1
                   solved := klimit P.look_ahead P.initial_replications = 0 } }
      else ms }

/-- One iteration of the `while` loop body: run replication `st.n`, increment
`self.n`, and update every not-yet-solved metric. -/
def stepRep (k : ℕ) (P : AlgParams) (devF : OnlineStatistics → Option ℚ)
    (results : ℕ → Fin k → ℚ) (st : SelState k) : SelState k :=
  let n' := st.n + 1
  { n := n'
    mets := fun j =>
      let ms := st.mets j
      if ms.sol.solved then ms
      else
        let ms' := updateMetric devF ms (results st.n j)
        if devLE (devProp devF ms'.stats) P.half_width_precision then
          { ms' with
            sol :=
              { nreps := if ms.sol.target_met = 0 then some n' else ms.sol.nreps
                target_met := ms.sol.target_met + 1
                solved := decide (ms.sol.target_met + 1 > klimit P.look_ahead n') } }
        else
          { ms' with sol := { nreps := none, target_met := 0, solved := false } } }

def countSolved (k : ℕ) (st : SelState k) : ℕ :=
  (List.finRange k).countP (fun j => (st.mets j).sol.solved)

/-- The `while` condition of the main loop. -/
def loopCond (k : ℕ) (P : AlgParams) (st : SelState k) : Bool :=
  decide (countSolved k st < k) &&
    decide (st.n < P.replication_budget + klimit P.look_ahead st.n)

def loopRun (k : ℕ) (P : AlgParams) (devF : OnlineStatistics → Option ℚ)
    (results : ℕ → Fin k → ℚ) : ℕ → SelState k → Option (SelState k)
  | 0, st => if loopCond k P st then none else some st
  | fuel + 1, st =>
    if loopCond k P st then
      loopRun k P devF results fuel (stepRep k P devF results st)
    else some st

/-- The recorded deviation history as handed to `find_position`
(`observers[metric].dev`): entries are floats or `np.nan`, never `None`. -/
def toDevVal : Option ℚ → DevVal
  | some v => .num v
  | none => .nan

def devValsOf (ms : MetricState) : List DevVal := ms.tab.dev.map toDevVal

/-- The correction step (lines 489-496): re-scan the full recorded deviation
history and replace the solution when the re-scan found a strictly earlier
one and the main loop had a solution at all.  (`find_position` cannot raise
here: the histories contain no `None`; the `.error` branch is dead.) -/
def correctedNreps (P : AlgParams) (ms : MetricState) : Option ℕ :=
  match find_position P.half_width_precision P.look_ahead (devValsOf ms) with
  | .ok (some adj) =>
    match ms.sol.nreps with
    | some q => if adj < q then some adj else some q
    | none => none
  | _ => ms.sol.nreps

structure TableRow where
  replications : ℕ
  data : Option ℚ
  cumulative_mean : Option ℚ
  deviation : Option ℚ
  deriving DecidableEq, Repr

def Tabulizer.summary_table (o : Tabulizer) : List TableRow :=
  (List.range o.n).map fun i =>
    { replications := i + 1
      data := o.x_i.getD i none
      cumulative_mean := o.cumulative_mean.getD i none
      deviation := o.dev.getD i none }

structure SelResult (k : ℕ) where
  nreps : Fin k → Option ℕ
  table : Fin k → List TableRow
  warning : Option (List (Fin k))

/-- Lines 489-514: correction, extraction of `nreps`, the combined summary
table, and the non-convergence warning naming the unsolved metrics. -/
def finalize (k : ℕ) (P : AlgParams) (st : SelState k) : SelResult k :=
  let nreps : Fin k → Option ℕ := fun j => correctedNreps P (st.mets j)
  let unsolved := (List.finRange k).filter (fun j => nreps j = none)
  { nreps := nreps
    table := fun j => (st.mets j).tab.summary_table
    warning := if unsolved.isEmpty then none else some unsolved }

/-- The whole of `select`: initial batch, main loop (on fuel), post-processing. -/
def select (k : ℕ) (P : AlgParams) (devF : OnlineStatistics → Option ℚ)
    (results : ℕ → Fin k → ℚ) (fuel : ℕ) : Option (SelResult k) :=
  (loopRun k P devF results fuel (initSelState k P devF results)).map
    (finalize k P)

/-! ## `MonitoredResource` (src/simulation/model.py, lines 178-294)

State of the monitored SimPy resource: capacity, number of busy units
(`self.count`), queue length (`len(self.queue)`), and the three monitoring
lists.  `request`/`release` call `update_time_weighted_stats` *before*
touching the resource state; a release grants the head of a non-empty FIFO
queue in the same step. -/

structure MonitoredResource where
  capacity : ℕ
  count : ℕ
  queueLen : ℕ
  time_last_event : List ℚ
  area_n_in_queue : List ℚ
  area_resource_busy : List ℚ
  deriving DecidableEq, Repr

def MonitoredResource.init_results (now : ℚ) (r : MonitoredResource) :
    MonitoredResource :=
  { r with
    time_last_event := [now], area_n_in_queue := [0], area_resource_busy := [0] }

def mkResource (now : ℚ) (capacity : ℕ) : MonitoredResource :=
  MonitoredResource.init_results now
    { capacity := capacity, count := 0, queueLen := 0
      time_last_event := [], area_n_in_queue := [], area_resource_busy := [] }

def MonitoredResource.lastEvent (r : MonitoredResource) : ℚ :=
  r.time_last_event.getLastD 0

def MonitoredResource.update_time_weighted_stats (now : ℚ)
    (r : MonitoredResource) : MonitoredResource :=
  let elapsed := now - r.lastEvent
  { r with
    time_last_event := r.time_last_event ++ [now]
    area_n_in_queue := r.area_n_in_queue ++ [(r.queueLen : ℚ) * elapsed]
    area_resource_busy := r.area_resource_busy ++ [(r.count : ℚ) * elapsed] }

def MonitoredResource.request (now : ℚ) (r : MonitoredResource) :
    MonitoredResource :=
  let r' := r.update_time_weighted_stats now
  if r'.count < r'.capacity then { r' with count := r'.count + 1 }
  else { r' with queueLen := r'.queueLen + 1 }

def MonitoredResource.release (now : ℚ) (r : MonitoredResource) :
    MonitoredResource :=
  let r' := r.update_time_weighted_stats now
  if 0 < r'.queueLen then { r' with queueLen := r'.queueLen - 1 }
  else { r' with count := r'.count - 1 }

/-- The resource-cleanup scenario of the spec's testable property: capacity 1,
three requests at time 0 holding for 5, 10 and 15; only the first holder
finishes (at 5, granting the second), the run stops at 12 and the caller
performs the final statistics flush. -/
def resourceScenario : MonitoredResource :=
  MonitoredResource.update_time_weighted_stats 12
    (MonitoredResource.release 5
      (MonitoredResource.request 0
        (MonitoredResource.request 0
          (MonitoredResource.request 0 (mkResource 0 1)))))

/-! ## `Model` results state and `Model.run` postlude (model.py, 604-677)

`Patient` (lines 150-175): sequential id, `np.nan`-initialised timing fields.
After `env.run(until=...)` returns, `Model.run` flushes the monitored
resource, manually resets the results variables when
`data_collection_period == 0`, and converts the patient list into
`results_list`.  The simulated run itself is abstracted: the postlude is
universally quantified over the state the run loop left behind. -/

structure Patient where
  patient_id : ℕ
  arrival_time : Option ℚ
  q_time_nurse : Option ℚ
  time_with_nurse : Option ℚ
  deriving DecidableEq, Repr

structure ModelResultsState where
  patients : List Patient
  nurse_time_used : ℚ
  audit_list : List ℚ        -- audit snapshots (timestamps; fields unused here)
  results_list : List Patient
  nurse : MonitoredResource
  deriving DecidableEq, Repr

/-- `Model.init_results_variables` (lines 604-611). -/
def init_results_variables (now : ℚ) (s : ModelResultsState) :
    ModelResultsState :=
  { s with
    patients := []
    nurse_time_used := 0
    audit_list := []
    nurse := s.nurse.init_results now }

/-- Lines 661-677 of `Model.run`: final statistics flush at the run's end
time, manual warm-up reset when there is no data-collection period, and
conversion of the patient objects into `results_list`. -/
def runPostlude (endTime : ℚ) (data_collection_period : ℚ)
    (s : ModelResultsState) : ModelResultsState :=
  let s1 := { s with nurse := s.nurse.update_time_weighted_stats endTime }
  let s2 := if data_collection_period = 0 then init_results_variables endTime s1
            else s1
  { s2 with results_list := s2.patients }

/-! ## Patient creation (`Model.generate_patient_arrivals`, lines 466-496)

Each arrival creates `Patient(len(self.patients) + 1)`, stamps its arrival
time and appends it; the warm-up completion process (lines 613-623) clears
`self.patients` via `init_results_variables`.  `arrivalsRun` replays a trace
of these two events, also keeping the log of every patient ever created. -/

inductive SimEvent where
  | arrival (t : ℚ)
  | warmUpReset
  deriving DecidableEq, Repr

def arrivalsStep (s : List Patient × List Patient) (e : SimEvent) :
    List Patient × List Patient :=
  match e with
  | .arrival t =>
    let p : Patient :=
      { patient_id := s.1.length + 1, arrival_time := some t
        q_time_nurse := none, time_with_nurse := none }
    (s.1 ++ [p], s.2 ++ [p])
  | .warmUpReset => ([], s.2)

/-- Returns (current `self.patients`, log of every patient created). -/
def arrivalsRun (evts : List SimEvent) : List Patient × List Patient :=
  evts.foldl arrivalsStep ([], [])

/-! ## `Param.validate_routing` (src/simulation/parameters.py, lines 587-625)

A routing object (`ASURouting`/`RehabRouting`) is a mapping from patient
category to a mapping from destination to probability; `vars(obj)` minus the
`_initialised` flag is modelled directly as an association list.  For every
category the probabilities must sum to within `[0.99, 1.01]` (else a
routing-sum `ValueError` naming the category and object), and then each
individual probability must lie in `[0, 1]` (else a range `ValueError`
naming the sub-key, category and object). -/

inductive RoutingErr where
  | sumErr (key objName : String) (total : ℚ)
  | rangeErr (subKey key objName : String) (v : ℚ)
  deriving DecidableEq, Repr

def probsTotal (probs : List (String × ℚ)) : ℚ := (probs.map (·.2)).sum

def checkProbRange (objName key : String) :
    List (String × ℚ) → Except RoutingErr Unit
  | [] => .ok ()
  | (sk, v) :: rest =>
    if v < 0 ∨ 1 < v then .error (.rangeErr sk key objName v)
    else checkProbRange objName key rest

def validateCategory (objName key : String) (probs : List (String × ℚ)) :
    Except RoutingErr Unit :=
  let total := probsTotal probs
  if total < 99 / 100 ∨ 101 / 100 < total then
    .error (.sumErr key objName total)
  else checkProbRange objName key probs

def validate_routing (objName : String) :
    List (String × List (String × ℚ)) → Except RoutingErr Unit
  | [] => .ok ()
  | (key, probs) :: rest =>
    match validateCategory objName key probs with
    | .error e => .error e
    | .ok _ => validate_routing objName rest

/-- The routing portion of `Param.check_param_validity` (lines 521-523):
validate `asu_routing`, then `rehab_routing`. -/
def check_routing_validity (asu rehab : List (String × List (String × ℚ))) :
    Except RoutingErr Unit :=
  match validate_routing "asu_routing" asu with
  | .error e => .error e
  | .ok _ => validate_routing "rehab_routing" rehab

/-- A category together with all its probabilities passes both checks. -/
def categoryOK (probs : List (String × ℚ)) : Prop :=
  (99 / 100 ≤ probsTotal probs ∧ probsTotal probs ≤ 101 / 100) ∧
    ∀ q ∈ probs, 0 ≤ q.2 ∧ q.2 ≤ 1

/-! ## `RestrictAttributes` (src/simulation/restrictattributes.py, 11-66) and
`LockedDict` (src/simulation/lockeddict.py, 9-96)

`RestrictAttributes.__setattr__` rejects a name once `_initialised` is set
(by the metaclass, at the end of construction) unless `hasattr(self, name)`
holds — which covers the instance `__dict__`, names resolvable via the
class (methods etc.), and the `_initialised` flag itself.  An exception
leaves the object untouched (the guard fires before `object.__setattr__`),
which `Except.error` models.  `LockedDict` locks its top-level key set at
construction: `__setitem__` rejects keys outside it, `__delitem__` always
raises. -/

def setVal {α : Type} (l : List (String × α)) (k : String) (v : α) :
    List (String × α) :=
  if l.any (·.1 = k) then l.map (fun p => if p.1 = k then (k, v) else p)
  else l ++ [(k, v)]

def getVal {α : Type} (l : List (String × α)) (k : String) : Option α :=
  (l.find? (·.1 = k)).map (·.2)

structure RestrictAttributes (α : Type) where
  initialised : Bool          -- the metaclass-written `_initialised` flag
  attrs : List (String × α)   -- the instance `__dict__`
  classAttrs : List String    -- names resolvable through the class
  deriving DecidableEq, Repr

def RestrictAttributes.hasattr {α : Type} (s : RestrictAttributes α)
    (name : String) : Bool :=
  s.attrs.any (·.1 = name) || s.classAttrs.contains name ||
    (s.initialised && name = "_initialised")

/-- `RestrictAttributes.__setattr__`. -/
def RestrictAttributes.setattr {α : Type} (s : RestrictAttributes α)
    (name : String) (v : α) : Except Unit (RestrictAttributes α) :=
  if s.initialised ∧ ¬ s.hasattr name then .error ()
  else .ok { s with attrs := setVal s.attrs name v }

structure LockedDict (α : Type) where
  data : List (String × α)
  lockedKeys : List String
  deriving DecidableEq, Repr

/-- `LockedDict.__init__`: lock exactly the construction-time top-level
keys. -/
def mkLockedDict {α : Type} (init : List (String × α)) : LockedDict α :=
  { data := init, lockedKeys := init.map (·.1) }

/-- `LockedDict.__setitem__` (post-construction, so the
`_locked_keys_initialised` flag is true). -/
def LockedDict.setitem {α : Type} (d : LockedDict α) (k : String) (v : α) :
    Except Unit (LockedDict α) :=
  if d.lockedKeys.contains k then .ok { d with data := setVal d.data k v }
  else .error ()

/-- `LockedDict.__delitem__`: always raises `KeyError`. -/
def LockedDict.delitem {α : Type} (_ : LockedDict α) (_ : String) :
    Except Unit (LockedDict α) :=
  .error ()

/-! ## `ReplicationsAlgorithm.__init__` / `valid_inputs` (replications.py,
lines 289-329)

`initial_replications` and `look_ahead` must be Python `int`s (a float like
`3.0` is rejected) and non-negative; `half_width_precision` must be positive
and `replication_budget` at least `initial_replications`.  `self.n` is set
to `initial_replications` before the validation runs. -/

inductive PyNum where
  | intVal (i : ℤ)
  | floatVal (q : ℚ)
  deriving DecidableEq, Repr

def PyNum.isInt : PyNum → Bool
  | .intVal _ => true
  | .floatVal _ => false

def PyNum.val : PyNum → ℚ
  | .intVal i => (i : ℚ)
  | .floatVal q => q

structure ReplicationsAlgorithm where
  alpha : ℚ
  half_width_precision : ℚ
  initial_replications : PyNum
  look_ahead : PyNum
  replication_budget : ℚ
  n : PyNum
  deriving DecidableEq, Repr

/-- `__init__` followed by `valid_inputs`, with the checks in source order. -/
def mkReplicationsAlgorithm (alpha half_width_precision : ℚ)
    (initial_replications look_ahead : PyNum) (replication_budget : ℚ) :
    Except String ReplicationsAlgorithm :=
  if ¬ initial_replications.isInt = true ∨ initial_replications.val < 0 then
    .error "initial_replications must be a non-negative integer"
  else if ¬ look_ahead.isInt = true ∨ look_ahead.val < 0 then
    .error "look_ahead must be a non-negative integer"
  else if half_width_precision ≤ 0 then
    .error "half_width_precision must be greater than 0"
  else if replication_budget < initial_replications.val then
    .error "replication_budget must be less than initial_replications"
  else
    .ok { alpha := alpha
          half_width_precision := half_width_precision
          initial_replications := initial_replications
          look_ahead := look_ahead
          replication_budget := replication_budget
          n := initial_replications }

/-- What it means for a raised routing `ValueError` to correctly identify the
offending field of the routing object it was raised for. -/
def errDescribes (name : String) (obj : List (String × List (String × ℚ))) :
    RoutingErr → Prop
  | .sumErr key objName total =>
      objName = name ∧ ∃ probs, (key, probs) ∈ obj ∧ total = probsTotal probs
        ∧ (total < 99 / 100 ∨ 101 / 100 < total)
  | .rangeErr subKey key objName v =>
      objName = name ∧ ∃ probs, (key, probs) ∈ obj ∧ (subKey, v) ∈ probs
        ∧ (v < 0 ∨ 1 < v)

/-! ## Theorems -/

/-- C4: `MonitoredResource.request`/`release` update the time-weighted
accumulators before changing resource state — they append
(queue length × elapsed time) and (busy count × elapsed time) computed from
the pre-change state and stamp the current time — and the capacity-1
scenario (three requests at time 0 holding 5/10/15, run until 12, final
flush) accumulates a total queue-time area of exactly 17 and busy-time area
of exactly 12. -/
theorem monitoredResource_claim :
    (∀ (r : MonitoredResource) (now : ℚ),
      (r.update_time_weighted_stats now).time_last_event
          = r.time_last_event ++ [now]
      ∧ (r.update_time_weighted_stats now).area_n_in_queue
          = r.area_n_in_queue ++ [(r.queueLen : ℚ) * (now - r.lastEvent)]
      ∧ (r.update_time_weighted_stats now).area_resource_busy
          = r.area_resource_busy ++ [(r.count : ℚ) * (now - r.lastEvent)]
      ∧ (r.request now).area_n_in_queue
          = (r.update_time_weighted_stats now).area_n_in_queue
      ∧ (r.request now).area_resource_busy
          = (r.update_time_weighted_stats now).area_resource_busy
      ∧ (r.request now).time_last_event
          = (r.update_time_weighted_stats now).time_last_event
      ∧ (r.release now).area_n_in_queue
          = (r.update_time_weighted_stats now).area_n_in_queue
      ∧ (r.release now).area_resource_busy
          = (r.update_time_weighted_stats now).area_resource_busy
      ∧ (r.release now).time_last_event
          = (r.update_time_weighted_stats now).time_last_event)
    ∧ resourceScenario.area_n_in_queue.sum = 17
    ∧ resourceScenario.area_resource_busy.sum = 12 := by
  refine ⟨fun r now => ?_,
    by norm_num [resourceScenario, MonitoredResource.release,
      MonitoredResource.request, MonitoredResource.update_time_weighted_stats,
      mkResource, MonitoredResource.init_results, MonitoredResource.lastEvent],
    by norm_num [resourceScenario, MonitoredResource.release,
      MonitoredResource.request, MonitoredResource.update_time_weighted_stats,
      mkResource, MonitoredResource.init_results, MonitoredResource.lastEvent]⟩
  refine ⟨rfl, rfl, rfl, ?_, ?_, ?_, ?_, ?_, ?_⟩ <;>
    simp only [MonitoredResource.request, MonitoredResource.release] <;>
    split <;> rfl

/-- C6: with `data_collection_period = 0`, whatever state the run loop left
behind, the manual reset performed right after the run loop exits leaves the
patient list, the per-patient results list and the audit list all empty. -/
theorem zero_data_collection_claim :
    ∀ (endTime : ℚ) (s : ModelResultsState),
      (runPostlude endTime 0 s).patients = []
      ∧ (runPostlude endTime 0 s).results_list = []
      ∧ (runPostlude endTime 0 s).audit_list = [] := by
  intro endTime s
  refine ⟨?_, ?_, ?_⟩ <;> simp [runPostlude, init_results_variables]

/-- C8 counterexample: after the warm-up reset clears `self.patients`, the
next patient is created with id `len([]) + 1 = 1` again.  In the trace
(arrival at 1, warm-up reset, arrival at 2) the second patient created gets
identifier 1 rather than 2, and the two distinct patients created during
the run share the identifier 1. -/
theorem patient_id_counterexample :
    ((arrivalsRun
        [SimEvent.arrival 1, SimEvent.warmUpReset, SimEvent.arrival 2]).2.map
        (·.patient_id) = [1, 1])
    ∧ ((arrivalsRun
        [SimEvent.arrival 1, SimEvent.warmUpReset, SimEvent.arrival 2]).2)[0]?
        ≠ ((arrivalsRun
        [SimEvent.arrival 1, SimEvent.warmUpReset, SimEvent.arrival 2]).2)[1]? := by
  decide

lemma arrivalsRun_inv (evts : List SimEvent) :
    ∀ cur log : List Patient,
      cur.map (·.patient_id) = List.range' 1 cur.length →
      (∃ pre, log = pre ++ cur) →
      ((evts.foldl arrivalsStep (cur, log)).1.map (·.patient_id)
          = List.range' 1 (evts.foldl arrivalsStep (cur, log)).1.length)
      ∧ ∃ pre, (evts.foldl arrivalsStep (cur, log)).2
          = pre ++ (evts.foldl arrivalsStep (cur, log)).1 := by
  induction evts with
  | nil => intro cur log h1 h2; exact ⟨h1, h2⟩
  | cons e rest ih =>
    intro cur log h1 h2
    cases e with
    | arrival t =>
      simp only [List.foldl_cons, arrivalsStep]
      apply ih
      · simp [h1, List.range'_concat, Nat.add_comm]
      · obtain ⟨pre, hp⟩ := h2
        exact ⟨pre, by simp [hp]⟩
    | warmUpReset =>
      simp only [List.foldl_cons, arrivalsStep]
      apply ih
      · simp
      · exact ⟨log, by simp⟩

/-- C8 amended: within one results-collection window — counting patients
created since the most recent clearing of the patient list (warm-up
completion), or since the run's start — identifiers are the sequence
1, 2, 3, …: the k-th patient of the window has identifier k, the list order
equals creation order (the retained patients are a suffix of the creation
log), and no identifier is duplicated among them. -/
theorem patient_id_amended (evts : List SimEvent) :
    ((arrivalsRun evts).1.map (·.patient_id)
        = List.range' 1 (arrivalsRun evts).1.length)
    ∧ ((arrivalsRun evts).1.map (·.patient_id)).Nodup
    ∧ ∃ pre, (arrivalsRun evts).2 = pre ++ (arrivalsRun evts).1 := by
  unfold arrivalsRun
  obtain ⟨h1, h2⟩ := arrivalsRun_inv evts [] [] (by simp) ⟨[], by simp⟩
  exact ⟨h1, by rw [h1]; exact List.nodup_range' _ _, h2⟩

/-- C10: constructing a `ReplicationsAlgorithm` succeeds exactly when
`initial_replications` and `look_ahead` are non-negative integers,
`half_width_precision > 0` and `replication_budget ≥ initial_replications`
(so it raises `ValueError` whenever the budget is below the initial
replications, either count is negative or not an integer, or the precision
is non-positive), and on success the running count `n` is initialised to
`initial_replications`. -/
theorem replications_algorithm_init_claim :
    ∀ (alpha hwp : ℚ) (ir la : PyNum) (budget : ℚ),
      ((∃ alg, mkReplicationsAlgorithm alpha hwp ir la budget = .ok alg) ↔
        (ir.isInt = true ∧ 0 ≤ ir.val ∧ la.isInt = true ∧ 0 ≤ la.val
          ∧ 0 < hwp ∧ ir.val ≤ budget))
      ∧ ∀ alg, mkReplicationsAlgorithm alpha hwp ir la budget = .ok alg →
          alg.n = ir ∧ alg.initial_replications = ir := by
  intro alpha hwp ir la budget
  unfold mkReplicationsAlgorithm
  split_ifs with h1 h2 h3 h4
  · refine ⟨⟨fun ⟨alg, h⟩ => by simp at h, fun h => ?_⟩,
      fun alg h => by simp at h⟩
    rcases h1 with h1 | h1
    · exact absurd h.1 h1
    · linarith [h.2.1]
  · refine ⟨⟨fun ⟨alg, h⟩ => by simp at h, fun h => ?_⟩,
      fun alg h => by simp at h⟩
    rcases h2 with h2 | h2
    · exact absurd h.2.2.1 h2
    · linarith [h.2.2.2.1]
  · refine ⟨⟨fun ⟨alg, h⟩ => by simp at h, fun h => ?_⟩,
      fun alg h => by simp at h⟩
    linarith [h.2.2.2.2.1]
  · refine ⟨⟨fun ⟨alg, h⟩ => by simp at h, fun h => ?_⟩,
      fun alg h => by simp at h⟩
    linarith [h.2.2.2.2.2]
  · push_neg at h1 h2
    refine ⟨⟨fun _ => ⟨h1.1, h1.2, h2.1, h2.2, by linarith, by linarith⟩,
      fun _ => ⟨_, rfl⟩⟩, fun alg h => ?_⟩
    cases h
    exact ⟨rfl, rfl⟩

/-- C10 witness: the default arguments (3 initial replications, look-ahead 5,
budget 1000, precision 0.05) construct successfully with `n = 3`. -/
theorem replications_algorithm_init_claim_witness :
    ((PyNum.intVal 3).isInt = true ∧ 0 ≤ (PyNum.intVal 3).val
      ∧ (PyNum.intVal 5).isInt = true ∧ 0 ≤ (PyNum.intVal 5).val
      ∧ 0 < (1 : ℚ) / 20 ∧ (PyNum.intVal 3).val ≤ (1000 : ℚ))
    ∧ ∃ alg, mkReplicationsAlgorithm (1/20) (1/20) (.intVal 3) (.intVal 5) 1000
        = .ok alg ∧ alg.n = .intVal 3 := by
  have h := replications_algorithm_init_claim (1/20) (1/20)
    (.intVal 3) (.intVal 5) 1000
  have hside : (PyNum.intVal 3).isInt = true ∧ 0 ≤ (PyNum.intVal 3).val
      ∧ (PyNum.intVal 5).isInt = true ∧ 0 ≤ (PyNum.intVal 5).val
      ∧ 0 < (1 : ℚ) / 20 ∧ (PyNum.intVal 3).val ≤ (1000 : ℚ) := by
    refine ⟨rfl, ?_, rfl, ?_, by norm_num, ?_⟩ <;> norm_num [PyNum.val]
  obtain ⟨alg, halg⟩ := h.1.mpr hside
  exact ⟨hside, alg, halg, (h.2 alg halg).1⟩

lemma getVal_setVal {α : Type} (l : List (String × α)) (k : String) (v : α) :
    getVal (setVal l k v) k = some v := by
  unfold setVal
  split
  case isTrue h =>
    induction l with
    | nil => simp at h
    | cons p t ih =>
      by_cases hp : p.1 = k
      · simp [getVal, List.find?, hp]
      · simp only [List.map_cons, if_neg hp]
        have ht : t.any (·.1 = k) = true := by
          rcases List.any_eq_true.mp h with ⟨q, hq, hqk⟩
          rcases List.mem_cons.mp hq with rfl | hq
          · exact absurd (of_decide_eq_true hqk) hp
          · exact List.any_eq_true.mpr ⟨q, hq, hqk⟩
        simpa [getVal, List.find?, hp] using ih ht
  case isFalse h =>
    induction l with
    | nil => simp [getVal, List.find?]
    | cons p t ih =>
      have hp : ¬ p.1 = k := by
        intro hk
        exact h (List.any_eq_true.mpr ⟨p, List.mem_cons_self _ _,
          decide_eq_true hk⟩)
      have ht : ¬ t.any (·.1 = k) = true := by
        intro hk
        rcases List.any_eq_true.mp hk with ⟨q, hq, hqk⟩
        exact h (List.any_eq_true.mpr ⟨q, List.mem_cons_of_mem _ hq, hqk⟩)
      simpa [getVal, List.find?, hp] using ih ht

/-- C9: for the attribute-restricted classes, once `_initialised` is set,
assigning a name not resolvable on the object raises `AttributeError`
(leaving the object untouched — the guard fires before any mutation),
while assigning an existing instance attribute succeeds and stores the new
value; for `LockedDict`, assigning a key outside the construction-time key
set raises `KeyError`, deleting any top-level key always raises `KeyError`,
and assigning an existing key succeeds and stores the new value. -/
theorem locked_structures_claim :
    (∀ (s : RestrictAttributes ℚ) (name : String) (v : ℚ),
        s.initialised = true → s.hasattr name = false →
          s.setattr name v = .error ())
    ∧ (∀ (s : RestrictAttributes ℚ) (name : String) (v : ℚ),
        s.attrs.any (·.1 = name) = true →
          s.setattr name v = .ok { s with attrs := setVal s.attrs name v }
          ∧ getVal (setVal s.attrs name v) name = some v)
    ∧ (∀ (init : List (String × ℚ)) (k : String) (v : ℚ),
        (mkLockedDict init).lockedKeys.contains k = false →
          (mkLockedDict init).setitem k v = .error ())
    ∧ (∀ (d : LockedDict ℚ) (k : String), d.delitem k = .error ())
    ∧ (∀ (init : List (String × ℚ)) (k : String) (v : ℚ),
        (init.map (·.1)).contains k = true →
          (mkLockedDict init).setitem k v
              = .ok { mkLockedDict init with data := setVal init k v }
          ∧ getVal (setVal init k v) k = some v) := by
  refine ⟨?_, ?_, ?_, ?_, ?_⟩
  · intro s name v hinit hno
    simp [RestrictAttributes.setattr, hinit, hno]
  · intro s name v hmem
    have hhas : s.hasattr name = true := by
      simp [RestrictAttributes.hasattr, hmem]
    exact ⟨by simp [RestrictAttributes.setattr, hhas], getVal_setVal _ _ _⟩
  · intro init k v hno
    have : ¬ k ∈ (mkLockedDict init).lockedKeys := by simpa using hno
    simp [LockedDict.setitem, this]
  · intro d k
    rfl
  · intro init k v hmem
    exact ⟨by simp only [LockedDict.setitem, mkLockedDict, hmem, if_true],
      getVal_setVal _ _ _⟩

/-- C9 witness: on a concrete restricted object and a concrete locked
dictionary, the unknown-name assignment and a deletion fail while an
existing-name assignment succeeds. -/
theorem locked_structures_claim_witness :
    ((⟨true, [("a", (1 : ℚ))], ["m"]⟩ : RestrictAttributes ℚ).setattr "b" 2
        = .error ())
    ∧ ((⟨true, [("a", (1 : ℚ))], ["m"]⟩ : RestrictAttributes ℚ).setattr "a" 2
        = .ok ⟨true, setVal [("a", (1 : ℚ))] "a" 2, ["m"]⟩)
    ∧ ((mkLockedDict [("x", (5 : ℚ))]).setitem "y" 6 = .error ())
    ∧ ((mkLockedDict [("x", (5 : ℚ))]).delitem "x" = .error ())
    ∧ ((mkLockedDict [("x", (5 : ℚ))]).setitem "x" 6
        = .ok { mkLockedDict [("x", (5 : ℚ))] with
                  data := setVal [("x", (5 : ℚ))] "x" 6 }) :=
  ⟨locked_structures_claim.1 _ "b" 2 rfl (by decide),
    (locked_structures_claim.2.1
      (⟨true, [("a", (1 : ℚ))], ["m"]⟩ : RestrictAttributes ℚ) "a" 2
      (by decide)).1,
    locked_structures_claim.2.2.1 [("x", 5)] "y" 6 (by decide),
    locked_structures_claim.2.2.2.1 (mkLockedDict [("x", 5)]) "x",
    (locked_structures_claim.2.2.2.2 [("x", (5 : ℚ))] "x" 6 (by decide)).1⟩

lemma checkProbRange_ok_iff (objName key : String)
    (probs : List (String × ℚ)) :
    checkProbRange objName key probs = .ok () ↔
      ∀ q ∈ probs, 0 ≤ q.2 ∧ q.2 ≤ 1 := by
  induction probs with
  | nil => simp [checkProbRange]
  | cons q t ih =>
    by_cases h : q.2 < 0 ∨ 1 < q.2
    · simp only [checkProbRange, if_pos h]
      constructor
      · intro hc; cases hc
      · intro hall
        rcases h with h | h
        · linarith [(hall q (List.mem_cons_self _ _)).1]
        · linarith [(hall q (List.mem_cons_self _ _)).2]
    · push_neg at h
      have hcond : ¬ (q.2 < 0 ∨ 1 < q.2) :=
        not_or.mpr ⟨not_lt.mpr h.1, not_lt.mpr h.2⟩
      simp only [checkProbRange, if_neg hcond, ih, List.forall_mem_cons]
      exact ⟨fun ht => ⟨⟨h.1, h.2⟩, ht⟩, fun hh => hh.2⟩

lemma validateCategory_ok_iff (objName key : String)
    (probs : List (String × ℚ)) :
    validateCategory objName key probs = .ok () ↔ categoryOK probs := by
  unfold validateCategory categoryOK
  by_cases h : probsTotal probs < 99 / 100 ∨ 101 / 100 < probsTotal probs
  · simp only [if_pos h]
    constructor
    · intro hc; cases hc
    · rintro ⟨⟨h1, h2⟩, -⟩
      rcases h with h | h <;> linarith
  · push_neg at h
    have hcond :
        ¬ (probsTotal probs < 99 / 100 ∨ 101 / 100 < probsTotal probs) :=
      not_or.mpr ⟨not_lt.mpr h.1, not_lt.mpr h.2⟩
    simp only [if_neg hcond, checkProbRange_ok_iff]
    exact ⟨fun ht => ⟨⟨h.1, h.2⟩, ht⟩, fun hh => hh.2⟩

lemma validate_routing_ok_iff (name : String)
    (obj : List (String × List (String × ℚ))) :
    validate_routing name obj = .ok () ↔ ∀ c ∈ obj, categoryOK c.2 := by
  induction obj with
  | nil => simp [validate_routing]
  | cons c t ih =>
    simp only [validate_routing]
    cases hv : validateCategory name c.1 c.2 with
    | error e =>
      constructor
      · intro hc; cases hc
      · intro hall
        have := (validateCategory_ok_iff name c.1 c.2).mpr
          (hall c (List.mem_cons_self _ _))
        rw [hv] at this; cases this
    | ok u =>
      cases u
      have hc := (validateCategory_ok_iff name c.1 c.2).mp hv
      simp only [ih, List.forall_mem_cons]
      exact ⟨fun ht => ⟨hc, ht⟩, fun hh => hh.2⟩

lemma checkProbRange_err (objName key : String) (probs : List (String × ℚ))
    (e : RoutingErr) :
    checkProbRange objName key probs = .error e →
      ∃ sk v, e = .rangeErr sk key objName v ∧ (sk, v) ∈ probs
        ∧ (v < 0 ∨ 1 < v) := by
  induction probs with
  | nil => intro hc; cases hc
  | cons q t ih =>
    by_cases h : q.2 < 0 ∨ 1 < q.2
    · simp only [checkProbRange, if_pos h]
      intro hc
      cases hc
      exact ⟨q.1, q.2, rfl, by simp, h⟩
    · simp only [checkProbRange, if_neg h]
      intro hc
      obtain ⟨sk, v, he, hm, hv⟩ := ih hc
      exact ⟨sk, v, he, List.mem_cons_of_mem _ hm, hv⟩

lemma validateCategory_err (objName key : String)
    (probs : List (String × ℚ)) (e : RoutingErr) :
    validateCategory objName key probs = .error e →
      (e = .sumErr key objName (probsTotal probs)
        ∧ (probsTotal probs < 99 / 100 ∨ 101 / 100 < probsTotal probs))
      ∨ ∃ sk v, e = .rangeErr sk key objName v ∧ (sk, v) ∈ probs
          ∧ (v < 0 ∨ 1 < v) := by
  unfold validateCategory
  by_cases h : probsTotal probs < 99 / 100 ∨ 101 / 100 < probsTotal probs
  · simp only [if_pos h]
    intro hc; cases hc
    exact Or.inl ⟨rfl, h⟩
  · simp only [if_neg h]
    intro hc
    exact Or.inr (checkProbRange_err objName key probs e hc)

lemma validate_routing_err (name : String)
    (obj : List (String × List (String × ℚ))) (e : RoutingErr) :
    validate_routing name obj = .error e → errDescribes name obj e := by
  induction obj with
  | nil => intro hc; cases hc
  | cons c t ih =>
    simp only [validate_routing]
    cases hv : validateCategory name c.1 c.2 with
    | error e' =>
      intro hc
      cases hc
      rcases validateCategory_err name c.1 c.2 e hv with ⟨he, hcond⟩ | ⟨sk, v, he, hm, hcond⟩
      · subst he
        exact ⟨rfl, c.2, by simp, rfl, hcond⟩
      · subst he
        exact ⟨rfl, c.2, by simp, hm, hcond⟩
    | ok u =>
      cases u
      intro hc
      have hd := ih hc
      cases e with
      | sumErr key objName total =>
        obtain ⟨h1, probs, hm, h3, h4⟩ := hd
        exact ⟨h1, probs, List.mem_cons_of_mem _ hm, h3, h4⟩
      | rangeErr sk key objName v =>
        obtain ⟨h1, probs, hm, h3, h4⟩ := hd
        exact ⟨h1, probs, List.mem_cons_of_mem _ hm, h3, h4⟩

/-- C5: the routing stage of parameter validation succeeds exactly when every
category of `asu_routing` and `rehab_routing` has probabilities summing to 1
within ±0.01 with each probability in [0,1]; any raised error names the
offending object, category (and sub-field) together with the observed value;
and a category with probabilities {0.6, 0.2, 0.1} is rejected with the
routing-sum error naming it. -/
theorem validate_routing_claim :
    (∀ asu rehab : List (String × List (String × ℚ)),
      check_routing_validity asu rehab = .ok () ↔
        ((∀ c ∈ asu, categoryOK c.2) ∧ (∀ c ∈ rehab, categoryOK c.2)))
    ∧ (∀ (name : String) (obj : List (String × List (String × ℚ)))
        (e : RoutingErr),
        validate_routing name obj = .error e → errDescribes name obj e)
    ∧ validate_routing "asu_routing"
        [("stroke", [("rehab", 6/10), ("esd", 2/10), ("other", 1/10)])]
        = .error (.sumErr "stroke" "asu_routing" (9/10)) := by
  refine ⟨?_, validate_routing_err, ?_⟩
  · intro asu rehab
    unfold check_routing_validity
    cases ha : validate_routing "asu_routing" asu with
    | error e =>
      constructor
      · intro hc; cases hc
      · rintro ⟨hasu, -⟩
        have := (validate_routing_ok_iff "asu_routing" asu).mpr hasu
        rw [ha] at this; cases this
    | ok u =>
      cases u
      have hasu := (validate_routing_ok_iff "asu_routing" asu).mp ha
      rw [validate_routing_ok_iff]
      exact ⟨fun h => ⟨hasu, h⟩, fun h => h.2⟩
  · norm_num [validate_routing, validateCategory, probsTotal, checkProbRange]

/-- C5 witness: the {0.6, 0.2, 0.1} category is reported with a routing-sum
error naming the category and the object, and a well-formed pair of routing
objects passes validation. -/
theorem validate_routing_claim_witness :
    errDescribes "asu_routing"
      [("stroke", [("rehab", 6/10), ("esd", 2/10), ("other", 1/10)])]
      (.sumErr "stroke" "asu_routing" (9/10))
    ∧ check_routing_validity
        [("stroke", [("esd", 2/5), ("other", 3/5)])]
        [("tia", [("esd", 0), ("other", 1)])] = .ok () := by
  refine ⟨validate_routing_claim.2.1 _ _ _ validate_routing_claim.2.2, ?_⟩
  refine (validate_routing_claim.1 _ _).mpr ⟨?_, ?_⟩ <;>
    · intro c hc
      simp only [List.mem_singleton] at hc
      subst hc
      refine ⟨⟨by norm_num [probsTotal], by norm_num [probsTotal]⟩, ?_⟩
      intro q hq
      fin_cases hq <;> norm_num
lemma update_n (s : OnlineStatistics) (x : ℚ) : (s.update x).n = s.n + 1 := by
  unfold OnlineStatistics.update
  split <;> rfl

lemma runStats_concat (a : ℚ) (ys : List ℚ) (x : ℚ) :
    runStats a (ys ++ [x]) = (runStats a ys).update x := by
  simp [runStats, List.foldl_concat]

lemma runStats_n (a : ℚ) (xs : List ℚ) : (runStats a xs).n = xs.length := by
  induction xs using List.reverseRecOn with
  | nil => rfl
  | append_singleton ys x ih =>
    rw [runStats_concat, update_n, ih]
    simp

lemma update_mean_sq (s : OnlineStatistics) (x m q : ℚ) (hn : s.n ≠ 0)
    (hm : s.mean = some m) (hq : s.sq = some q) :
    (s.update x).mean = some (m + (x - m) / ((s.n : ℚ) + 1))
    ∧ (s.update x).sq
        = some (q + (x - m) * (x - (m + (x - m) / ((s.n : ℚ) + 1)))) := by
  unfold OnlineStatistics.update
  rw [if_neg (by omega)]
  rw [hm, hq]
  exact ⟨rfl, rfl⟩

example : (runStats (1/20) [10,20,30]) = ⟨3, some 30, some 20, some 200, 1/20⟩ := by
  norm_num [runStats, OnlineStatistics.update, initStats]

example : (runStats (1/20) [10,20]) = ⟨2, some 20, some 15, some 50, 1/20⟩ := by
  norm_num [runStats, OnlineStatistics.update, initStats]

lemma welford_core (a : ℚ) (xs : List ℚ) (hne : xs ≠ []) :
    (runStats a xs).mean = some (xs.sum / xs.length)
    ∧ (runStats a xs).sq
        = some ((xs.map (fun y => y ^ 2)).sum - xs.sum ^ 2 / xs.length) := by
  induction xs using List.reverseRecOn with
  | nil => cases hne rfl
  | append_singleton ys x ih =>
    rcases eq_or_ne ys [] with rfl | hys
    · constructor
      · norm_num [runStats, OnlineStatistics.update, initStats]
      · norm_num [runStats, OnlineStatistics.update, initStats]
    · obtain ⟨hm, hq⟩ := ih hys
      have hn := runStats_n a ys
      have hL0 : ys.length ≠ 0 := fun h => hys (List.length_eq_zero.mp h)
      have hLQ : (ys.length : ℚ) ≠ 0 := Nat.cast_ne_zero.mpr hL0
      have hL1 : ((ys.length : ℚ) + 1) ≠ 0 := by positivity
      rw [runStats_concat]
      obtain ⟨hm', hq'⟩ := update_mean_sq (runStats a ys) x _ _
        (by rw [hn]; exact hL0) hm hq
      rw [hm', hq', hn]
      constructor
      · congr 1
        rw [List.sum_append, List.length_append]
        push_cast
        field_simp
        ring
      · congr 1
        rw [List.map_append, List.sum_append, List.sum_append,
          List.length_append]
        push_cast
        field_simp
        ring

lemma centered_sum (c : ℚ) (xs : List ℚ) :
    (xs.map (fun y => (y - c) ^ 2)).sum
      = (xs.map (fun y => y ^ 2)).sum - 2 * c * xs.sum
        + (xs.length : ℚ) * c ^ 2 := by
  induction xs with
  | nil => simp
  | cons y t ih =>
    simp only [List.map_cons, List.sum_cons, List.length_cons, ih]
    push_cast
    ring

lemma batch_sq (xs : List ℚ) (h : xs ≠ []) :
    (xs.map (fun y => (y - xs.sum / xs.length) ^ 2)).sum
      = (xs.map (fun y => y ^ 2)).sum - xs.sum ^ 2 / xs.length := by
  have hL0 : xs.length ≠ 0 := fun hh => h (List.length_eq_zero.mp hh)
  have hLQ : (xs.length : ℚ) ≠ 0 := Nat.cast_ne_zero.mpr hL0
  rw [centered_sum]
  field_simp
  ring

lemma std_small (tppf : ℚ → ℤ → ℝ) (a : ℚ) (xs : List ℚ) (h : xs.length < 3) :
    (runStats a xs).std = none
    ∧ (runStats a xs).half_width tppf = none
    ∧ (runStats a xs).lci tppf = none
    ∧ (runStats a xs).uci tppf = none
    ∧ (runStats a xs).deviation tppf = none := by
  have hn : ¬ 2 < (runStats a xs).n := by rw [runStats_n]; omega
  have hstd : (runStats a xs).std = none := by
    simp [OnlineStatistics.std, hn]
  refine ⟨hstd, ?_, ?_, ?_, ?_⟩
  · simp [OnlineStatistics.half_width, OnlineStatistics.std_error, hstd]
  · simp [OnlineStatistics.lci, hn]
  · simp [OnlineStatistics.uci, hn]
  · simp [OnlineStatistics.deviation, hn]

/-- C1: feeding 10, 20, 30 (alpha = 0.05) yields mean 20, sample standard
deviation exactly 10, and confidence bounds equal to the closed-form
two-sided Student-t interval with 2 degrees of freedom
(mean ± t(0.975, 2) · std / √3, for every quantile function `tppf`);
feeding only 10, 20 yields mean 15 with `nan` standard deviation,
half-width and confidence bounds.  In general `std`, `half_width`, `lci`,
`uci` and `deviation` are `nan` whenever fewer than 3 observations have been
accumulated, and for every non-empty update sequence the Welford-maintained
mean equals the arithmetic mean and the sum-of-squared-deviations equals the
batch sum of squared deviations. -/
theorem onlineStatistics_claim (tppf : ℚ → ℤ → ℝ) :
    (runStats (1/20) [10, 20, 30]).mean = some 20
    ∧ (runStats (1/20) [10, 20, 30]).std = some 10
    ∧ (runStats (1/20) [10, 20, 30]).lci tppf
        = some ((20 : ℝ) - tppf (39/40) 2 * ((10 : ℝ) / Real.sqrt 3))
    ∧ (runStats (1/20) [10, 20, 30]).uci tppf
        = some ((20 : ℝ) + tppf (39/40) 2 * ((10 : ℝ) / Real.sqrt 3))
    ∧ (runStats (1/20) [10, 20]).mean = some 15
    ∧ (runStats (1/20) [10, 20]).std = none
    ∧ (runStats (1/20) [10, 20]).half_width tppf = none
    ∧ (runStats (1/20) [10, 20]).lci tppf = none
    ∧ (runStats (1/20) [10, 20]).uci tppf = none
    ∧ (∀ (a : ℚ) (xs : List ℚ), xs.length < 3 →
        (runStats a xs).std = none
        ∧ (runStats a xs).half_width tppf = none
        ∧ (runStats a xs).lci tppf = none
        ∧ (runStats a xs).uci tppf = none
        ∧ (runStats a xs).deviation tppf = none)
    ∧ (∀ (a : ℚ) (xs : List ℚ), (runStats a xs).n = xs.length)
    ∧ (∀ (a : ℚ) (xs : List ℚ), xs ≠ [] →
        (runStats a xs).mean = some (xs.sum / xs.length)
        ∧ (runStats a xs).sq
            = some ((xs.map (fun y => (y - xs.sum / xs.length) ^ 2)).sum)) := by
  have h3 : runStats (1/20) [10, 20, 30]
      = ⟨3, some 30, some 20, some 200, 1/20⟩ := by
    norm_num [runStats, OnlineStatistics.update, initStats]
  have hsqrt : Real.sqrt 100 = 10 := by
    rw [show (100 : ℝ) = (10 : ℝ) ^ 2 by norm_num]
    exact Real.sqrt_sq (by norm_num)
  have hstd3 : (runStats (1/20) [10, 20, 30]).std = some 10 := by
    rw [h3]
    simp only [OnlineStatistics.std, OnlineStatistics.variance]
    norm_num [hsqrt]
  have hhw3 : (runStats (1/20) [10, 20, 30]).half_width tppf
      = some (tppf (39/40) 2 * ((10 : ℝ) / Real.sqrt 3)) := by
    simp only [OnlineStatistics.half_width, OnlineStatistics.std_error, hstd3]
    rw [h3]
    norm_num
  have hlci3 : (runStats (1/20) [10, 20, 30]).lci tppf
      = some ((20 : ℝ) - tppf (39/40) 2 * ((10 : ℝ) / Real.sqrt 3)) := by
    simp only [OnlineStatistics.lci]
    rw [hhw3, h3]
    norm_num
  have huci3 : (runStats (1/20) [10, 20, 30]).uci tppf
      = some ((20 : ℝ) + tppf (39/40) 2 * ((10 : ℝ) / Real.sqrt 3)) := by
    simp only [OnlineStatistics.uci]
    rw [hhw3, h3]
    norm_num
  have hsmall2 := std_small tppf (1/20) [10, 20] (by norm_num)
  refine ⟨by rw [h3], hstd3, hlci3, huci3,
    by norm_num [runStats, OnlineStatistics.update, initStats],
    hsmall2.1, hsmall2.2.1, hsmall2.2.2.1, hsmall2.2.2.2.1,
    std_small tppf, runStats_n, ?_⟩
  intro a xs hne
  obtain ⟨hm, hq⟩ := welford_core a xs hne
  exact ⟨hm, by rw [hq, batch_sq xs hne]⟩

/-- C1 witness: the short-sample clause instantiated at [10, 20] and the
Welford clause instantiated at [1, 2, 3] (with a concrete quantile
function). -/
theorem onlineStatistics_claim_witness :
    (([10, 20] : List ℚ).length < 3
      ∧ OnlineStatistics.deviation (fun _ _ => 0)
          (runStats (1/20) [10, 20]) = none)
    ∧ (([1, 2, 3] : List ℚ) ≠ []
      ∧ (runStats (1/20) [1, 2, 3]).mean
          = some (([1, 2, 3] : List ℚ).sum / (([1, 2, 3] : List ℚ).length : ℚ))) := by
  refine ⟨⟨by norm_num, ?_⟩, ⟨by simp, ?_⟩⟩
  · exact ((onlineStatistics_claim
      (fun _ _ => 0)).2.2.2.2.2.2.2.2.2.1 (1/20) [10, 20]
        (by norm_num)).2.2.2.2
  · exact ((onlineStatistics_claim
      (fun _ _ => 0)).2.2.2.2.2.2.2.2.2.2.2 (1/20) [1, 2, 3]
        (by simp)).1


lemma window_cons (lst : List DevVal) (j la : ℕ) (x : DevVal)
    (h : lst[j]? = some x) :
    (lst.drop j).take (la + 1) = x :: (lst.drop (j + 1)).take la := by
  have hj : j < lst.length := by
    by_contra hc
    rw [List.getElem?_eq_none (by omega)] at h
    cases h
  rw [List.drop_eq_getElem_cons hj, List.take_succ_cons]
  congr 1
  rw [List.getElem?_eq_getElem hj] at h
  cases h
  rfl

lemma window_head_nan (hwp : ℚ) (lst : List DevVal) (j la : ℕ)
    (h : lst[j]? = some .nan) :
    windowAllBelow hwp ((lst.drop j).take (la + 1)) = .ok false := by
  rw [window_cons lst j la _ h]
  rfl

lemma window_head_high (hwp : ℚ) (lst : List DevVal) (j la : ℕ) (w : ℚ)
    (h : lst[j]? = some (.num w)) (hw : ¬ w < hwp) :
    windowAllBelow hwp ((lst.drop j).take (la + 1)) = .ok false := by
  rw [window_cons lst j la _ h]
  simp [windowAllBelow, hw]

lemma window_head_null (hwp : ℚ) (lst : List DevVal) (j la : ℕ)
    (h : lst[j]? = some .null) :
    windowAllBelow hwp ((lst.drop j).take (la + 1)) = .error () := by
  rw [window_cons lst j la _ h]
  rfl

lemma windowAllBelow_all_low (hwp : ℚ) :
    ∀ w : List DevVal, (∀ x ∈ w, ∃ v, x = DevVal.num v ∧ v < hwp) →
      windowAllBelow hwp w = .ok true := by
  intro w
  induction w with
  | nil => intro _; rfl
  | cons x t ih =>
    intro h
    obtain ⟨v, rfl, hv⟩ := h x (List.mem_cons_self _ _)
    simp only [windowAllBelow, if_pos hv]
    exact ih fun y hy => h y (List.mem_cons_of_mem _ hy)

lemma window_all_low (hwp : ℚ) (lst : List DevVal) (j la : ℕ)
    (h : ∀ m, j ≤ m → m ≤ j + la → ∃ v, lst[m]? = some (.num v) ∧ v < hwp) :
    windowAllBelow hwp ((lst.drop j).take (la + 1)) = .ok true := by
  apply windowAllBelow_all_low
  intro x hx
  obtain ⟨idx, hidx⟩ := List.mem_iff_getElem?.mp hx
  rw [List.getElem?_take] at hidx
  by_cases hlt : idx < la + 1
  · rw [if_pos hlt, List.getElem?_drop] at hidx
    obtain ⟨v, hv1, hv2⟩ := h (j + idx) (by omega) (by omega)
    rw [hidx] at hv1
    cases hv1
    exact ⟨v, rfl, hv2⟩
  · rw [if_neg hlt] at hidx
    cases hidx

lemma scan_skip (hwp : ℚ) (la : ℕ) (lst : List DevVal) :
    ∀ fuel i,
      (∀ j, i ≤ j → j < i + fuel →
        windowAllBelow hwp ((lst.drop j).take (la + 1)) = .ok false) →
      scanWindows hwp la lst i fuel = .ok none := by
  intro fuel
  induction fuel with
  | zero => intro i _; rfl
  | succ f ih =>
    intro i h
    simp only [scanWindows, h i le_rfl (by omega)]
    exact ih (i + 1) fun j hj1 hj2 => h j (by omega) (by omega)

lemma scan_hit (hwp : ℚ) (la : ℕ) (lst : List DevVal) :
    ∀ fuel i j, i ≤ j → j < i + fuel →
      (∀ j', i ≤ j' → j' < j →
        windowAllBelow hwp ((lst.drop j').take (la + 1)) = .ok false) →
      windowAllBelow hwp ((lst.drop j).take (la + 1)) = .ok true →
      scanWindows hwp la lst i fuel = .ok (some (j + 1)) := by
  intro fuel
  induction fuel with
  | zero => intro i j h1 h2 _ _; omega
  | succ f ih =>
    intro i j h1 h2 hlow hhit
    rcases eq_or_lt_of_le h1 with rfl | hlt
    · simp only [scanWindows, hhit]
    · simp only [scanWindows, hlow i le_rfl hlt]
      exact ih (i + 1) j (by omega) (by omega)
        (fun j' hj1 hj2 => hlow j' (by omega) hj2) hhit

lemma firstValidIdx_spec :
    ∀ lst : List DevVal, ∀ (i : ℕ) (x : DevVal),
      lst[i]? = some x → x.isNum = true →
      ∃ s, firstValidIdx lst = some s
        ∧ (∃ w, lst[s]? = some w ∧ w.isNum = true)
        ∧ ∀ j w, j < s → lst[j]? = some w → w.isNum = false := by
  intro lst
  induction lst with
  | nil => intro i x h _; cases h
  | cons y t ih =>
    intro i x hx hnum
    by_cases hy : y.isNum
    · exact ⟨0, by simp [firstValidIdx, hy], ⟨y, by simp, hy⟩,
        fun j w hj _ => absurd hj (Nat.not_lt_zero j)⟩
    · have hi : i ≠ 0 := by
        rintro rfl
        rw [List.getElem?_cons_zero] at hx
        cases hx
        exact hy hnum
      obtain ⟨i', rfl⟩ := Nat.exists_eq_succ_of_ne_zero hi
      have hx' : t[i']? = some x := by simpa using hx
      obtain ⟨s, hs1, hs2, hs3⟩ := ih i' x hx' hnum
      refine ⟨s + 1, ?_, ?_, ?_⟩
      · simp [firstValidIdx, hy, hs1]
      · obtain ⟨w, hw1, hw2⟩ := hs2
        exact ⟨w, by simpa using hw1, hw2⟩
      · intro j w hj hw
        cases j with
        | zero =>
          rw [List.getElem?_cons_zero] at hw
          cases hw
          simpa using hy
        | succ j' =>
          exact hs3 j' w (by omega) (by simpa using hw)

lemma guard_of_above (hwp : ℚ) (lst : List DevVal)
    (h : ∀ x ∈ lst, x = DevVal.null ∨ ∃ v, x = DevVal.num v ∧ hwp ≤ v) :
    guardAllAbove hwp lst = true := by
  unfold guardAllAbove
  rw [List.all_eq_true]
  intro x hx
  rcases h x hx with rfl | ⟨v, rfl, hv⟩
  · rfl
  · simpa using hv

lemma guard_false_of_below (hwp : ℚ) (lst : List DevVal) (i : ℕ) (v : ℚ)
    (h : lst[i]? = some (DevVal.num v)) (hv : v < hwp) :
    guardAllAbove hwp lst = false := by
  cases hb : guardAllAbove hwp lst with
  | false => rfl
  | true =>
    exfalso
    have hmem : DevVal.num v ∈ lst := List.mem_iff_getElem?.mpr ⟨i, h⟩
    have := List.all_eq_true.mp hb _ hmem
    simp at this
    exact absurd hv (not_lt.mpr this)

/-- C2 amended: (i) an empty list, or one whose entries are all `None` or
numbers at or above the threshold, yields no position; (ii) if the list
first crosses below the threshold at index `i`, the `look_ahead` further
entries after `i` are also below, and — the amendment — every `None` entry
before the crossing comes before the first numeric entry, the result is
`i + 1`; (iii) if the threshold is crossed but no below-threshold position
has `look_ahead` further entries, and the same `None` proviso holds on the
scanned range, no position is returned.  (Without the proviso the window
test compares `None` with the threshold and raises `TypeError`.) -/
theorem find_position_amended (hwp : ℚ) (la : ℕ) (lst : List DevVal) :
    ((∀ x ∈ lst, x = DevVal.null ∨ ∃ v, x = DevVal.num v ∧ hwp ≤ v) →
      find_position hwp la lst = .ok none)
    ∧ (∀ (i : ℕ) (v : ℚ), lst[i]? = some (DevVal.num v) → v < hwp →
        (∀ j w, j < i → lst[j]? = some (DevVal.num w) → ¬ w < hwp) →
        (∀ j, j < i → lst[j]? = some DevVal.null →
          ∀ j' w, j' < j → lst[j']? ≠ some (DevVal.num w)) →
        (∀ m, i < m → m ≤ i + la →
          ∃ w, lst[m]? = some (DevVal.num w) ∧ w < hwp) →
        i + la < lst.length →
        find_position hwp la lst = .ok (some (i + 1)))
    ∧ ((∃ (p : ℕ) (v : ℚ), lst[p]? = some (DevVal.num v) ∧ v < hwp) →
        (∀ (p : ℕ) (v : ℚ), lst[p]? = some (DevVal.num v) → v < hwp →
          lst.length ≤ p + la) →
        (∀ j, j + la < lst.length → lst[j]? = some DevVal.null →
          ∀ j' w, j' < j → lst[j']? ≠ some (DevVal.num w)) →
        find_position hwp la lst = .ok none) := by
  refine ⟨?_, ?_, ?_⟩
  · intro h
    unfold find_position
    rw [guard_of_above hwp lst h]
    rfl
  · intro i v hi hv hcross hnull hla hlen
    have hguard := guard_false_of_below hwp lst i v hi hv
    obtain ⟨s, hs1, ⟨w, hws, hwnum⟩, hs3⟩ :=
      firstValidIdx_spec lst i (DevVal.num v) hi rfl
    have hsle : s ≤ i := by
      by_contra hc
      have := hs3 i (DevVal.num v) (by omega) hi
      simp [DevVal.isNum] at this
    simp only [find_position, hguard, Bool.false_eq_true, if_false, hs1]
    apply scan_hit hwp la lst _ s i hsle (by omega)
    · intro j' hj1 hj2
      have hj'len : j' < lst.length := by omega
      obtain ⟨x, hx⟩ : ∃ x, lst[j']? = some x :=
        ⟨_, List.getElem?_eq_getElem hj'len⟩
      cases x with
      | nan => exact window_head_nan hwp lst j' la hx
      | num w' => exact window_head_high hwp lst j' la w' hx (hcross j' w' hj2 hx)
      | null =>
        exfalso
        have hne : s ≠ j' := by
          intro h
          subst h
          rw [hws] at hx
          cases hx
          simp [DevVal.isNum] at hwnum
        cases w with
        | num wv => exact (hnull j' hj2 hx s wv (by omega)) hws
        | nan => simp [DevVal.isNum] at hwnum
        | null => simp [DevVal.isNum] at hwnum
    · refine window_all_low hwp lst i la (fun m hm1 hm2 => ?_)
      rcases eq_or_lt_of_le hm1 with rfl | hlt
      · exact ⟨v, hi, hv⟩
      · exact hla m hlt hm2
  · intro hex hins hnull
    cases hguard : guardAllAbove hwp lst with
    | true => simp [find_position, hguard]
    | false =>
      obtain ⟨p, v, hp, hv⟩ := hex
      obtain ⟨s, hs1, ⟨w, hws, hwnum⟩, hs3⟩ :=
        firstValidIdx_spec lst p (DevVal.num v) hp rfl
      simp only [find_position, hguard, Bool.false_eq_true, if_false, hs1]
      apply scan_skip
      intro j hj1 hj2
      have hjla : j + la < lst.length := by omega
      obtain ⟨x, hx⟩ : ∃ x, lst[j]? = some x :=
        ⟨_, List.getElem?_eq_getElem (by omega)⟩
      cases x with
      | nan => exact window_head_nan hwp lst j la hx
      | num w' =>
        refine window_head_high hwp lst j la w' hx ?_
        intro hlow
        have := hins j w' hx hlow
        omega
      | null =>
        exfalso
        have hne : s ≠ j := by
          intro h
          subst h
          rw [hws] at hx
          cases hx
          simp [DevVal.isNum] at hwnum
        cases w with
        | num wv => exact (hnull j hjla hx s wv (by omega)) hws
        | nan => simp [DevVal.isNum] at hwnum
        | null => simp [DevVal.isNum] at hwnum

/-- C2 counterexample: the input `[5.0, None, 0.0]` with threshold 1 and
look-ahead 0 satisfies law (ii)'s premises (first crossing below the
threshold at index 2, zero further entries required, entries 0 and 1 not
below), yet `find_position` raises a `TypeError` (the window starting at the
interior `None` is compared against the threshold) instead of returning
2 + 1 = 3. -/
theorem find_position_counterexample :
    ([DevVal.num 5, DevVal.null, DevVal.num 0] : List DevVal)[2]?
        = some (DevVal.num 0)
    ∧ (0 : ℚ) < 1
    ∧ ([DevVal.num 5, DevVal.null, DevVal.num 0] : List DevVal)[0]?
        = some (DevVal.num 5)
    ∧ ¬ (5 : ℚ) < 1
    ∧ ([DevVal.num 5, DevVal.null, DevVal.num 0] : List DevVal)[1]?
        = some DevVal.null
    ∧ find_position 1 0 [DevVal.num 5, DevVal.null, DevVal.num 0] = .error ()
    ∧ find_position 1 0 [DevVal.num 5, DevVal.null, DevVal.num 0]
        ≠ .ok (some 3) := by
  refine ⟨rfl, by norm_num, rfl, by norm_num, rfl, rfl, ?_⟩
  rw [show find_position 1 0 [DevVal.num 5, DevVal.null, DevVal.num 0]
      = .error () from rfl]
  intro h
  cases h

/-- C2 amended witness: the three laws applied at concrete inputs — an
all-above list, a one-element crossing with empty look-ahead, and a crossing
with an unfillable look-ahead window. -/
theorem find_position_amended_witness :
    find_position 1 0 [DevVal.null, DevVal.num 2] = .ok none
    ∧ find_position 1 0 [DevVal.num 0] = .ok (some 1)
    ∧ find_position 1 2 [DevVal.num 0, DevVal.num 0] = .ok none := by
  refine ⟨(find_position_amended 1 0 _).1 ?_,
    (find_position_amended 1 0 _).2.1 0 0 (by simp) (by norm_num)
      (fun j w hj _ => absurd hj (Nat.not_lt_zero j))
      (fun j hj => absurd hj (Nat.not_lt_zero j))
      (fun m hm1 hm2 => absurd (hm1.trans_le hm2) (lt_irrefl 0))
      (by simp),
    (find_position_amended 1 2 _).2.2
      ⟨0, 0, by simp, by norm_num⟩ ?_ ?_⟩
  · intro x hx
    fin_cases hx
    · exact Or.inl rfl
    · exact Or.inr ⟨2, rfl, by norm_num⟩
  · intro p v _ _
    simp only [List.length_cons, List.length_nil]
    omega
  · intro j hj
    exfalso
    simp only [List.length_cons, List.length_nil] at hj
    omega

lemma windowAllBelow_no_null (hwp : ℚ) :
    ∀ w : List DevVal, (∀ x ∈ w, x ≠ DevVal.null) →
      ∃ b, windowAllBelow hwp w = .ok b := by
  intro w
  induction w with
  | nil => intro _; exact ⟨true, rfl⟩
  | cons x t ih =>
    intro h
    cases x with
    | null => exact absurd rfl (h _ (List.mem_cons_self _ _))
    | nan => exact ⟨false, rfl⟩
    | num v =>
      by_cases hv : v < hwp
      · obtain ⟨b, hb⟩ := ih fun y hy => h y (List.mem_cons_of_mem _ hy)
        exact ⟨b, by simp [windowAllBelow, hv, hb]⟩
      · exact ⟨false, by simp [windowAllBelow, hv]⟩

lemma scanWindows_no_null (hwp : ℚ) (la : ℕ) (lst : List DevVal)
    (h : ∀ x ∈ lst, x ≠ DevVal.null) :
    ∀ (fuel i : ℕ), ∃ r, scanWindows hwp la lst i fuel = .ok r := by
  intro fuel
  induction fuel with
  | zero => intro i; exact ⟨none, rfl⟩
  | succ f ih =>
    intro i
    have hw : ∀ x ∈ (lst.drop i).take (la + 1), x ≠ DevVal.null :=
      fun x hx => h x (List.mem_of_mem_drop (List.mem_of_mem_take hx))
    obtain ⟨b, hb⟩ := windowAllBelow_no_null hwp _ hw
    cases b with
    | true => exact ⟨some (i + 1), by simp [scanWindows, hb]⟩
    | false =>
      obtain ⟨r, hr⟩ := ih (i + 1)
      exact ⟨r, by simp [scanWindows, hb, hr]⟩

lemma find_position_no_null (hwp : ℚ) (la : ℕ) (lst : List DevVal)
    (h : ∀ x ∈ lst, x ≠ DevVal.null) :
    ∃ r, find_position hwp la lst = .ok r := by
  cases hg : guardAllAbove hwp lst with
  | true => exact ⟨none, by simp [find_position, hg]⟩
  | false =>
    cases hf : firstValidIdx lst with
    | none => exact ⟨none, by simp [find_position, hg, hf]⟩
    | some s =>
      obtain ⟨r, hr⟩ := scanWindows_no_null hwp la lst h (lst.length - la - s) s
      exact ⟨r, by simp [find_position, hg, hf, hr]⟩

lemma devValsOf_no_null (ms : MetricState) :
    ∀ x ∈ devValsOf ms, x ≠ DevVal.null := by
  intro x hx
  obtain ⟨y, _, rfl⟩ := List.mem_map.mp hx
  cases y <;> simp [toDevVal]

lemma updateMetric_dev_len (devF : OnlineStatistics → Option ℚ)
    (ms : MetricState) (x : ℚ)
    (h : ms.tab.dev.length = ms.stats.n) :
    (updateMetric devF ms x).tab.dev.length
      = (updateMetric devF ms x).stats.n := by
  simp [updateMetric, Tabulizer.record, update_n, h]

lemma foldl_updateMetric_dev_len (devF : OnlineStatistics → Option ℚ) :
    ∀ (l : List ℚ) (ms : MetricState),
      ms.tab.dev.length = ms.stats.n →
      (l.foldl (updateMetric devF) ms).tab.dev.length
        = (l.foldl (updateMetric devF) ms).stats.n := by
  intro l
  induction l with
  | nil => intro ms h; exact h
  | cons x t ih => intro ms h; exact ih _ (updateMetric_dev_len devF ms x h)

lemma initSelState_dev_len (k : ℕ) (P : AlgParams)
    (devF : OnlineStatistics → Option ℚ) (results : ℕ → Fin k → ℚ)
    (j : Fin k) :
    ((initSelState k P devF results).mets j).tab.dev.length
      = ((initSelState k P devF results).mets j).stats.n := by
  have hbase := foldl_updateMetric_dev_len devF
    ((List.range P.initial_replications).map fun r => results r j)
    { stats := initStats P.alpha, tab := emptyTab
      sol := { nreps := none, target_met := 0, solved := false } } rfl
  simp only [initSelState]
  split <;> simpa using hbase

lemma stepRep_dev_len (k : ℕ) (P : AlgParams)
    (devF : OnlineStatistics → Option ℚ) (results : ℕ → Fin k → ℚ)
    (st : SelState k)
    (h : ∀ j, (st.mets j).tab.dev.length = (st.mets j).stats.n) (j : Fin k) :
    ((stepRep k P devF results st).mets j).tab.dev.length
      = ((stepRep k P devF results st).mets j).stats.n := by
  simp only [stepRep]
  split
  · exact h j
  · split <;> simpa using updateMetric_dev_len devF (st.mets j) _ (h j)

lemma loopRun_dev_len (k : ℕ) (P : AlgParams)
    (devF : OnlineStatistics → Option ℚ) (results : ℕ → Fin k → ℚ) :
    ∀ (fuel : ℕ) (st st' : SelState k),
      (∀ j, (st.mets j).tab.dev.length = (st.mets j).stats.n) →
      loopRun k P devF results fuel st = some st' →
      ∀ j, (st'.mets j).tab.dev.length = (st'.mets j).stats.n := by
  intro fuel
  induction fuel with
  | zero =>
    intro st st' h hrun j
    simp only [loopRun] at hrun
    split at hrun
    · cases hrun
    · cases hrun; exact h j
  | succ f ih =>
    intro st st' h hrun j
    simp only [loopRun] at hrun
    split at hrun
    · exact ih _ _ (fun j' => stepRep_dev_len k P devF results st h j') hrun j
    · cases hrun; exact h j

/-- C3: after the main loop of `select`, each metric's full recorded
deviation history (one entry per replication fed to that metric's
accumulator) is re-scanned with `find_position` — whose threshold is not
floored at `initial_replications` — and whenever the re-scan finds a
sustained position `p` strictly smaller than the main loop's recorded answer
`q`, the replication count returned for the metric is `p`. -/
theorem select_correction_claim (k : ℕ) (P : AlgParams)
    (devF : OnlineStatistics → Option ℚ) (results : ℕ → Fin k → ℚ)
    (fuel : ℕ) (st : SelState k) (j : Fin k) (p q : ℕ)
    (hloop : loopRun k P devF results fuel
        (initSelState k P devF results) = some st)
    (hfind : find_position P.half_width_precision P.look_ahead
        (devValsOf (st.mets j)) = .ok (some p))
    (hmain : (st.mets j).sol.nreps = some q)
    (hlt : p < q) :
    (finalize k P st).nreps j = some p
    ∧ (devValsOf (st.mets j)).length = (st.mets j).stats.n := by
  constructor
  · simp only [finalize, correctedNreps, hfind, hmain, if_pos hlt]
  · have hlen := loopRun_dev_len k P devF results fuel _ st
      (fun j' => initSelState_dev_len k P devF results j') hloop j
    simpa [devValsOf] using hlen

/-- C7: whatever state the main loop of `select` ends in, the
post-processing never raises (in particular the `find_position` re-scans
cannot hit the `TypeError` branch, as the recorded histories contain no
`None`), the non-convergence warning is emitted exactly when some metric
has no returned replication count and then names exactly those metrics, and
the combined summary table still carries one row per recorded replication
for every metric, converged or not. -/
theorem select_nonconvergence_claim (k : ℕ) (P : AlgParams)
    (devF : OnlineStatistics → Option ℚ) (results : ℕ → Fin k → ℚ)
    (fuel : ℕ) (st : SelState k)
    (_hloop : loopRun k P devF results fuel
        (initSelState k P devF results) = some st) :
    (∀ j, ∃ r, find_position P.half_width_precision P.look_ahead
        (devValsOf (st.mets j)) = .ok r)
    ∧ ((finalize k P st).warning = none
        ↔ ∀ j, (finalize k P st).nreps j ≠ none)
    ∧ (∀ l, (finalize k P st).warning = some l →
        ∀ j, (j ∈ l ↔ (finalize k P st).nreps j = none))
    ∧ (∀ j, ((finalize k P st).table j).length = (st.mets j).tab.n) := by
  have hmem : ∀ j : Fin k,
      (j ∈ (List.finRange k).filter
        (fun j' => decide (correctedNreps P (st.mets j') = none)))
      ↔ correctedNreps P (st.mets j) = none := by
    intro j
    simp [List.mem_filter, List.mem_finRange]
  refine ⟨fun j => find_position_no_null _ _ _ (devValsOf_no_null _),
    ?_, ?_, ?_⟩
  · simp only [finalize]
    by_cases he : ((List.finRange k).filter
        (fun j' => decide (correctedNreps P (st.mets j') = none))).isEmpty
    · rw [if_pos he]
      refine ⟨fun _ j hnone => ?_, fun _ => rfl⟩
      have hj := (hmem j).mpr hnone
      rw [List.isEmpty_iff] at he
      rw [he] at hj
      cases hj
    · rw [if_neg he]
      refine ⟨fun hc => absurd hc (by simp), fun hall => ?_⟩
      exfalso
      obtain ⟨j, hj⟩ := List.exists_mem_of_ne_nil _ (fun hnil =>
        he (List.isEmpty_iff.mpr hnil))
      exact hall j ((hmem j).mp hj)
  · intro l hl j
    simp only [finalize] at hl ⊢
    by_cases he : ((List.finRange k).filter
        (fun j' => decide (correctedNreps P (st.mets j') = none))).isEmpty
    · rw [if_pos he] at hl
      cases hl
    · rw [if_neg he] at hl
      injection hl with hl'
      subst hl'
      exact hmem j
  · intro j
    simp [finalize, Tabulizer.summary_table]

/-- C3 witness: with 4 initial replications, constant data and a deviation
that is 0 from the third observation on, the main loop's answer is 4 but the
re-scan of the history `[nan, nan, 0, 0]` finds the sustained position 3
(strictly below the `initial_replications` floor), and 3 is returned. -/
theorem select_correction_claim_witness :
    (loopRun 1 ⟨1/20, 1, 4, 0, 4⟩ (fun _ => some 0) (fun _ _ => 5) 0
        (initSelState 1 ⟨1/20, 1, 4, 0, 4⟩ (fun _ => some 0) (fun _ _ => 5))
      = some (initSelState 1 ⟨1/20, 1, 4, 0, 4⟩ (fun _ => some 0)
          (fun _ _ => 5)))
    ∧ (3 : ℕ) < 4
    ∧ (finalize 1 ⟨1/20, 1, 4, 0, 4⟩
        (initSelState 1 ⟨1/20, 1, 4, 0, 4⟩ (fun _ => some 0)
          (fun _ _ => 5))).nreps 0 = some 3 :=
  ⟨rfl, by norm_num,
    (select_correction_claim 1 ⟨1/20, 1, 4, 0, 4⟩ (fun _ => some 0)
      (fun _ _ => 5) 0
      (initSelState 1 ⟨1/20, 1, 4, 0, 4⟩ (fun _ => some 0) (fun _ _ => 5))
      0 3 4 rfl rfl rfl (by norm_num)).1⟩

/-- C7 witness: a zero-budget, zero-initial-replications run leaves the lone
metric unsolved; the post-processing applies cleanly, with the summary table
still carrying that metric's (empty) history. -/
theorem select_nonconvergence_claim_witness :
    (loopRun 1 ⟨1/20, 1, 0, 0, 0⟩ (fun _ => none) (fun _ _ => 0) 0
        (initSelState 1 ⟨1/20, 1, 0, 0, 0⟩ (fun _ => none) (fun _ _ => 0))
      = some (initSelState 1 ⟨1/20, 1, 0, 0, 0⟩ (fun _ => none)
          (fun _ _ => 0)))
    ∧ ((finalize 1 ⟨1/20, 1, 0, 0, 0⟩
          (initSelState 1 ⟨1/20, 1, 0, 0, 0⟩ (fun _ => none)
            (fun _ _ => 0))).table 0).length
        = ((initSelState 1 ⟨1/20, 1, 0, 0, 0⟩ (fun _ => none)
            (fun _ _ => 0)).mets 0).tab.n :=
  ⟨rfl,
    (select_nonconvergence_claim 1 ⟨1/20, 1, 0, 0, 0⟩ (fun _ => none)
      (fun _ _ => 0) 0
      (initSelState 1 ⟨1/20, 1, 0, 0, 0⟩ (fun _ => none) (fun _ _ => 0))
      rfl).2.2.2 0⟩
